import Mathlib

set_option linter.unusedVariables false

/-!
Shallow embedding of the `multiformats` Python library (varint, multicodec,
multibase, multihash, CID, multiaddr) and verification of specification
claims against it.

Bytes are modelled as natural numbers; every byte produced by the library is
below 256, and theorems about decoding carry that bound as a hypothesis where
it matters.  Python functions that raise exceptions are modelled as values in
`Except String`.
-/

/-- Mirrors `varint._max_num_bytes = 9`. -/
def varintMaxNumBytes : Nat := 9

/-- Loop of `varint.encode` (src/multiformats/varint/__init__.py, lines 43-53):
emits 7-bit groups, least significant first, setting the continuation bit on
every byte except the last; raises once a ninth continuation byte would be
appended (which happens exactly when `x ≥ 2^63`).  `count` is the number of
bytes already emitted before this iteration. -/
def varintEncodeLoop (x : Nat) (count : Nat) : Except String (List Nat) :=
  let nextByte := x % 128
  let x2 := x / 128
  if h : 0 < x2 then
    if varintMaxNumBytes ≤ count + 1 then
      .error "Varints must be at most 9 bytes long."
    else
      match varintEncodeLoop x2 (count + 1) with
      | .error e => .error e
      | .ok rest => .ok ((nextByte + 128) :: rest)
  else .ok [nextByte]
termination_by x
decreasing_by
  exact Nat.div_lt_self (Nat.lt_of_lt_of_le h (Nat.div_le_self x 128)) (by norm_num)

/-- Embedding of `varint.encode` (lines 24-54) for non-negative inputs. -/
def varint_encode (x : Nat) : Except String (List Nat) :=
  varintEncodeLoop x 0

/-- The byte string produced by a successful `varint.encode` call, as a pure
function: 7-bit groups, least significant first, continuation bit on all but
the last byte. -/
def varintBytes (x : Nat) : List Nat :=
  if h : x < 128 then [x]
  else (x % 128 + 128) :: varintBytes (x / 128)
termination_by x
decreasing_by
  exact Nat.div_lt_self (Nat.lt_of_lt_of_le (by norm_num) (Nat.le_of_not_lt h)) (by norm_num)

/-- The integer value denoted by a varint byte string (payloads are the low
7 bits of each byte, least significant first). -/
def varintVal : List Nat → Nat
  | [] => 0
  | b :: rest => b % 128 + 128 * varintVal rest

/-- Loop of `varint.decode_raw` (lines 175-192): reads bytes until one without
the continuation bit, accumulating `x`; raises on missing bytes and on a
continuation byte in ninth position.  Bytes are assumed below 256, so the
Python continuation test `(byte >> 7) == 1` is `128 ≤ byte`. -/
def varintDecodeLoop : List Nat → Nat → Nat → Except String (Nat × Nat)
  | [], numRead, _acc =>
      if numRead = 0 then
        .error "Varints must be at least 1 byte long."
      else
        .error "Last byte was a continuation byte, but next byte not available."
  | b :: rest, numRead, acc =>
      let acc2 := acc + (b % 128) * 2 ^ (7 * numRead)
      let numRead2 := numRead + 1
      if 128 ≤ b then
        if varintMaxNumBytes ≤ numRead2 then
          .error "Varints must be at most 9 bytes long."
        else
          varintDecodeLoop rest numRead2 acc2
      else .ok (acc2, numRead2)

/-- Minimality check of `varint.decode_raw` (lines 193-194): the decoded
value must not fit in fewer bytes than were actually read. -/
def varintMinCheck (bs : List Nat) (x n : Nat) : Except String (Nat × Nat × List Nat) :=
  if 1 < n ∧ x < 2 ^ (7 * (n - 1)) then
    .error "Number was not minimally encoded."
  else
    .ok (x, n, bs.drop n)

/-- Runs the varint decoding loop, then the minimality check, mirroring the
body of `varint.decode_raw`. -/
def varint_decode_raw (bs : List Nat) : Except String (Nat × Nat × List Nat) :=
  (varintDecodeLoop bs 0 0).bind fun p => varintMinCheck bs p.1 p.2

/-- Embedding of `varint.decode` (lines 57-95) on a bytes-like input: decodes
a varint and additionally requires that all input bytes were consumed. -/
def varint_decode (bs : List Nat) : Except String Nat :=
  (varint_decode_raw bs).bind fun p =>
    if p.2.1 < bs.length then
      .error "A bytes-like object was passed, but not all bytes were used by the encoding."
    else
      .ok p.1

/-- Boolean test for an error result. -/
def exceptIsError {α : Type} : Except String α → Bool
  | .error _ => true
  | .ok _ => false

/-- Spec condition for C3: the input contains zero bytes. -/
def vcEmpty (bs : List Nat) : Prop := bs = []

/-- Spec condition for C3: a continuation byte occurs at position 9, i.e. the
first nine bytes all carry the continuation bit (encoding longer than nine
bytes). -/
def vcTooLong (bs : List Nat) : Prop :=
  9 ≤ bs.length ∧ ∀ i, i < 9 → 128 ≤ bs.getD i 0

/-- Spec condition for C3: a continuation byte has no follow-up byte: the
input is nonempty, shorter than nine bytes, and every byte carries the
continuation bit. -/
def vcTruncated (bs : List Nat) : Prop :=
  bs ≠ [] ∧ bs.length < 9 ∧ ∀ i, i < bs.length → 128 ≤ bs.getD i 0

/-- Spec condition for C3: the decoded value is not minimally encoded: the
varint proper consists of `n = k+1 > 1` bytes and its value is below
`2^(7*(n-1))`. -/
def vcNonMinimal (bs : List Nat) : Prop :=
  ∃ k, k ≤ 8 ∧ k < bs.length ∧ (∀ i, i < k → 128 ≤ bs.getD i 0) ∧
    bs.getD k 0 < 128 ∧ 1 ≤ k ∧ varintVal (bs.take (k + 1)) < 2 ^ (7 * k)

/-- Spec condition for C3: the input is bytes-like and trailing unconsumed
bytes remain after the varint. -/
def vcTrailing (bs : List Nat) : Prop :=
  ∃ k, k ≤ 8 ∧ k < bs.length ∧ (∀ i, i < k → 128 ≤ bs.getD i 0) ∧
    bs.getD k 0 < 128 ∧ k + 1 < bs.length

/-- Disjunction of the five failure conditions stated by the spec for
`varint.decode` on bytes-like input. -/
def varintDecodeFails (bs : List Nat) : Prop :=
  vcEmpty bs ∨ vcTooLong bs ∨ vcTruncated bs ∨ vcNonMinimal bs ∨ vcTrailing bs

/-- A multicodec registry entry (src/multiformats/multicodec/__init__.py,
class `Multicodec`): name, tag, code, status and description, with the code
already normalised to an unsigned integer. -/
structure Multicodec where
  name : String
  tag : String
  code : Nat
  status : String
  description : String
deriving DecidableEq, Repr

/-- The code-indexed half of the multicodec registry (`_code_table`); the
table contents are loaded from the external `multiformats_config` resource,
so it is kept abstract here. -/
def MulticodecCodeTable : Type := Nat → Option Multicodec

/-- Embedding of `multicodec.unwrap_raw` (lines 451-478): decode the leading
varint and fail with a `KeyError` if no multicodec with that code is
registered. -/
def multicodec_unwrap_raw (tbl : MulticodecCodeTable) (bs : List Nat) :
    Except String (Nat × Nat × List Nat) :=
  (varint_decode_raw bs).bind fun p =>
    match tbl p.1 with
    | none => .error "KeyError: no multicodec is known with the unwrapped code."
    | some _ => .ok p

/-- Embedding of `multihash.exists` by code (src/multiformats/multihash/
__init__.py, lines 328-357): the code must be registered and its codec must
carry the tag `multihash`. -/
def multihash_exists_code (tbl : MulticodecCodeTable) (code : Nat) : Bool :=
  match tbl code with
  | none => false
  | some c => c.tag == "multihash"

/-- Embedding of `multihash.unwrap_raw` (lines 558-608) on bytes-like input:
strip the multicodec code (which must denote a multihash), read the declared
digest size, take all remaining bytes as the hash digest, and check the
declared size against the actual size. -/
def multihash_unwrap_raw (tbl : MulticodecCodeTable) (bs : List Nat) :
    Except String (Nat × List Nat) :=
  (multicodec_unwrap_raw tbl bs).bind fun p =>
    if multihash_exists_code tbl p.1 then
      (varint_decode_raw p.2.2).bind fun q =>
        if q.1 = q.2.2.length then
          .ok (p.1, q.2.2)
        else
          .error "Multihash digest lists a size different from the hash digest size."
    else
      .error "KeyError: the unwrapped multicodec code is not a multihash."

/-- A multihash function: the codec name and code, the raw hash function
(data and optional size to truncated digest), and the registered maximum
digest size (`None` meaning unbounded, as for `identity`). -/
structure Multihash where
  name : String
  code : Nat
  hashfun : List Nat → Option Nat → List Nat
  maxDigestSize : Option Nat

/-- Embedding of `_validate_raw_digest_size` (lines 497-500). -/
def validateRawDigestSize (maxSize : Option Nat) (raw : List Nat) :
    Except String Unit :=
  match maxSize with
  | none => .ok ()
  | some m =>
      if m < raw.length then
        .error "A digest of size larger than the max digest size was unwrapped."
      else
        .ok ()

/-- Embedding of `Multihash.digest` (lines 211-245): run the raw hash
function, check the requested size against the produced digest (the source
asserts equality), and wrap as `varint(code) || varint(size) || raw digest`
via `Multicodec.wrap`. -/
def multihash_digest (h : Multihash) (data : List Nat) (size : Option Nat) :
    Except String (List Nat) :=
  let rawDigest := h.hashfun data size
  match size with
  | none =>
      (varint_encode h.code).bind fun c =>
        (varint_encode rawDigest.length).bind fun s =>
          .ok (c ++ (s ++ rawDigest))
  | some sz =>
      if sz = rawDigest.length then
        (varint_encode h.code).bind fun c =>
          (varint_encode sz).bind fun s =>
            .ok (c ++ (s ++ rawDigest))
      else
        .error "AssertionError: digest size differs from the requested size."

/-- Embedding of `Multihash.unwrap` (lines 247-276): unwrap the digest, check
the decoded code against this multihash's code, and check the raw digest
against the maximum digest size.  The module-level `multihash.unwrap` with a
non-`None` `hashfun` argument delegates to this method. -/
def multihash_unwrap (tbl : MulticodecCodeTable) (h : Multihash) (bs : List Nat) :
    Except String (List Nat) :=
  (multihash_unwrap_raw tbl bs).bind fun p =>
    if p.1 = h.code then
      (validateRawDigestSize h.maxDigestSize p.2).bind fun _ => .ok p.2
    else
      .error "Decoded code differs from multihash code."

/-- The `identity` multihash (code 0x00, tag `multihash`, no max digest
size), with the raw hash function of `multihash/raw.py` restricted to the
in-bounds case. -/
def identityMultihash : Multihash :=
  { name := "identity"
    code := 0
    hashfun := fun d s => match s with | none => d | some n => d.take n
    maxDigestSize := none }

/-- A one-entry multicodec code table holding the `identity` multihash
codec. -/
def sampleMulticodecTable : MulticodecCodeTable := fun c =>
  if c = 0 then some ⟨"identity", "multihash", 0, "permanent", "raw binary"⟩ else none

/-- A multibase registry entry (src/multiformats/multibase/__init__.py,
class `Multibase`): name, single-character code (already normalised by
`validate_code`), status and description. -/
structure Multibase where
  name : String
  code : Char
  status : String
  description : String
deriving DecidableEq, Repr

/-- Python `Multibase._as_tuple` (line 292-294): equality and hashing of
multibases use name, code and status (not the description). -/
def Multibase.asTuple (b : Multibase) : String × Char × String :=
  (b.name, b.code, b.status)

/-- Python `Multibase.__eq__` via `_as_tuple`. -/
def multibaseEq (a b : Multibase) : Bool :=
  a.asTuple == b.asTuple

/-- Python `Multicodec._as_tuple` (lines 282-284): equality and hashing of
multicodecs use name, tag, code and status (not the description). -/
def Multicodec.asTuple (c : Multicodec) : String × String × Nat × String :=
  (c.name, c.tag, c.code, c.status)

/-- A CID value (src/multiformats/cid/__init__.py, class `CID`): default
multibase, version, content multicodec, multihash function name and the
multihash digest bytes. -/
structure CID where
  base : Multibase
  version : Nat
  codec : Multicodec
  hashfunName : String
  digest : List Nat
deriving DecidableEq, Repr

/-- Embedding of `CID.__bytes__` (lines 488-491): version 0 serialises to the
digest alone, any other version to
`varint(version) || varint(codec.code) || digest`. -/
def CID_toBytes (c : CID) : Except String (List Nat) :=
  if c.version = 0 then
    .ok c.digest
  else
    (varint_encode c.version).bind fun vb =>
      (varint_encode c.codec.code).bind fun cb =>
        .ok (vb ++ cb ++ c.digest)

/-- Embedding of `_CID_validate_version` (lines 98-110); the version is an
arbitrary integer at this point.  Version 0 requires base `base58btc`, codec
`dag-pb` and hash function `sha2-256`, with an error message naming the
offending field. -/
def CID_validate_version (version : Int) (baseName codecName hashfunName : String) :
    Except String Int :=
  if version = 2 ∨ version = 3 then
    .error "CID versions 2 and 3 are reserved for future use."
  else if ¬ (version = 0 ∨ version = 1) then
    .error "CID version is not allowed."
  else if version = 0 then
    if baseName ≠ "base58btc" then
      .error ("CIDv0 multibase must be base58btc, found " ++ baseName ++ " instead.")
    else if codecName ≠ "dag-pb" then
      .error ("CIDv0 multicodec must be dag-pb, found " ++ codecName ++ " instead.")
    else if hashfunName ≠ "sha2-256" then
      .error ("CIDv0 multihash must be sha2-256, found " ++ hashfunName ++ " instead.")
    else
      .ok 0
  else
    .ok version

/-- The version-validation stage of `CID.__new__` (lines 199-226), after the
base, codec and digest have been resolved: validate the version against the
resolved fields, then construct the instance. -/
def CID_new (base : Multibase) (version : Int) (codec : Multicodec)
    (hashfunName : String) (digest : List Nat) : Except String CID :=
  (CID_validate_version version base.name codec.name hashfunName).bind fun v =>
    .ok ⟨base, v.toNat, codec, hashfunName, digest⟩

/-- The version-changing path of `CID.set` (lines 416-486): when the new
version differs from the current one, `_CID_validate_version` runs again
against the (here unchanged) base, codec and hash function. -/
def CID_set_version (c : CID) (v : Int) : Except String CID :=
  if v = (c.version : Int) then
    .ok c
  else
    (CID_validate_version v c.base.name c.codec.name c.hashfunName).bind fun v2 =>
      .ok { c with version := v2.toNat }

/-- Python `CID._as_tuple` (lines 503-505): equality and hashing of CIDs use
only the version, the codec and the digest, never the base. -/
def CID.asTuple (c : CID) : Nat × (String × String × Nat × String) × List Nat :=
  (c.version, c.codec.asTuple, c.digest)

/-- Python `CID.__eq__` via `_as_tuple`. -/
def cidEq (a b : CID) : Bool :=
  a.asTuple == b.asTuple

/-- A deterministic stand-in for Python's string hashing. -/
def stringHash (s : String) : Nat :=
  s.data.foldl (fun a ch => a * 31 + ch.toNat) 7

/-- A deterministic stand-in for Python's hashing of byte tuples. -/
def natListHash (l : List Nat) : Nat :=
  l.foldl (fun a b => a * 33 + b) 5381

/-- Python `CID.__hash__` (lines 507-508): the hash of `_as_tuple`, i.e. a
function of version, codec and digest only. -/
def cidHashValue (c : CID) : Nat :=
  stringHash c.codec.name * 31 + stringHash c.codec.tag * 37 + c.codec.code * 41
    + stringHash c.codec.status * 43 + c.version * 47 + natListHash c.digest

/-- The `base58btc` multibase entry, as displayed in the source docstrings. -/
def base58btcBase : Multibase :=
  ⟨"base58btc", 'z', "default", "base58 bitcoin"⟩

/-- The `base32` multibase entry, as displayed in the source docstrings. -/
def base32Base : Multibase :=
  ⟨"base32", 'b', "default", "rfc4648 case-insensitive - no padding"⟩

/-- The `raw` multicodec entry, as displayed in the source docstrings. -/
def rawCodec : Multicodec :=
  ⟨"raw", "ipld", 85, "permanent", "raw binary"⟩

/-- A sample CIDv1 used as concrete witness input. -/
def sampleCID : CID :=
  ⟨base58btcBase, 1, rawCodec, "sha2-256", [18, 32, 1, 2]⟩

/-- The sample CIDv1 re-based to `base32`. -/
def sampleCIDBase32 : CID :=
  ⟨base32Base, 1, rawCodec, "sha2-256", [18, 32, 1, 2]⟩

/-- The code-indexed half of the multibase registry (`_code_table`); every
registered code is a single character after normalisation. -/
def MultibaseCodeTable : Type := Char → Option Multibase

/-- Embedding of `multibase.from_str` (src/multiformats/multibase/
__init__.py, lines 467-491): empty strings are rejected, otherwise the
encoding is looked up by the first character.  (The source's `startswith`
fallback loop is equivalent to this lookup because `validate_code`
normalises every registered code to a single character.) -/
def multibase_from_str (tbl : MultibaseCodeTable) (s : List Char) :
    Except String Multibase :=
  match s with
  | [] => .error "Empty string is not valid for encoded data."
  | ch :: _ =>
      match tbl ch with
      | some e => .ok e
      | none => .error "KeyError: no known multibase code is a prefix of the given string."

/-- Embedding of the instance method `Multibase.decode` (lines 239-262):
resolve the encoding from the string prefix, require it to equal this base
(by `_as_tuple` equality), then run this base's raw decoder on the string
without its first character.  `rawDecoder` is the external base-N codec
collaborator, keyed by base name. -/
def multibase_decode (tbl : MultibaseCodeTable)
    (rawDecoder : String → List Char → Except String (List Nat))
    (b : Multibase) (s : List Char) : Except String (List Nat) :=
  (multibase_from_str tbl s).bind fun enc =>
    if multibaseEq enc b then
      rawDecoder b.name (s.drop 1)
    else
      .error ("Expected " ++ b.name ++ " encoding, found " ++ enc.name
        ++ " encoding instead.")

/-- A two-entry multibase code table holding `base58btc` and `base32`. -/
def sampleMultibaseTable : MultibaseCodeTable := fun ch =>
  if ch = 'z' then some base58btcBase
  else if ch = 'b' then some base32Base
  else none

/-- A trivial raw decoder for witness purposes. -/
def sampleRawDecoder (_name : String) (_s : List Char) : Except String (List Nat) :=
  .ok []

/-- The full multicodec registry state: the code-indexed and name-indexed
tables (`_code_table` and `_name_table`). -/
structure MulticodecRegistry where
  codeTable : Nat → Option Multicodec
  nameTable : String → Option Multicodec

/-- The name-collision test of `multicodec.register` (line 525): a multicodec
with the same name but a different code is already registered. -/
def multicodecNameClash (r : MulticodecRegistry) (m : Multicodec) : Bool :=
  match r.nameTable m.name with
  | some e => e.code != m.code
  | none => false

/-- Embedding of `multicodec.register` (src/multiformats/multicodec/
__init__.py, lines 498-528): without `overwrite` an existing code is an
error; an existing name under a different code is always an error; otherwise
both tables are updated at the new multicodec's code and name. -/
def multicodec_register (r : MulticodecRegistry) (m : Multicodec)
    (overwrite : Bool) : Except String MulticodecRegistry :=
  if overwrite = false ∧ (r.codeTable m.code).isSome then
    .error "Multicodec with this code already exists."
  else if multicodecNameClash r m then
    .error "Multicodec with this name already exists under a different code."
  else
    .ok { codeTable := fun c => if c = m.code then some m else r.codeTable c
          nameTable := fun n => if n = m.name then some m else r.nameTable n }

/-- Embedding of `multicodec.get` by name (lines 297-328). -/
def multicodec_get_name (r : MulticodecRegistry) (n : String) :
    Except String Multicodec :=
  match r.nameTable n with
  | some e => .ok e
  | none => .error "KeyError: no multicodec with this name."

/-- Embedding of `multicodec.get` by code (lines 297-328). -/
def multicodec_get_code (r : MulticodecRegistry) (c : Nat) :
    Except String Multicodec :=
  match r.codeTable c with
  | some e => .ok e
  | none => .error "KeyError: no multicodec with this code."

/-- A two-entry multicodec registry used as witness input: `old-codec` under
code 5 and `other` under code 7. -/
def sampleRegistry : MulticodecRegistry where
  codeTable := fun c =>
    if c = 5 then some ⟨"old-codec", "ipld", 5, "draft", ""⟩
    else if c = 7 then some ⟨"other", "ipld", 7, "draft", ""⟩
    else none
  nameTable := fun n =>
    if n = "old-codec" then some ⟨"old-codec", "ipld", 5, "draft", ""⟩
    else if n = "other" then some ⟨"other", "ipld", 7, "draft", ""⟩
    else none

/-- The multicodec registered over code 5 in the C9 witness. -/
def newCodec : Multicodec := ⟨"new-codec", "ipld", 5, "draft", ""⟩

/-- A multiaddr protocol as used by `multiaddr.decode`: its name and the
address size from its registered implementation (`None` = variable size,
`0` = no address, positive = fixed size). -/
structure ProtoSpec where
  name : String
  addrSize : Option Nat
deriving DecidableEq, Repr

/-- The composite protocol lookup performed by `Proto.__new__`
(src/multiformats/multiaddr/__init__.py, lines 136-166): multicodec code to
multiaddr-tagged codec with a registered implementation. -/
def ProtoTable : Type := Nat → Option ProtoSpec

/-- The address-bytes validation performed by `Proto.validate` (lines
317-343) when given bytes: protocols without an address reject any value;
fixed-size raw decoders check the byte length via `_validate_size`
(multiaddr/raw.py, lines 156-158) and then always succeed (`IPv4Address`,
`IPv6Address` and `int.from_bytes` accept every bytestring of the correct
length).  No variable-size protocol has a registered implementation in
multiaddr/raw.py. -/
def protoValidateBytes (p : ProtoSpec) (b : List Nat) : Except String (List Nat) :=
  match p.addrSize with
  | some 0 => .error "Protocol admits no address value."
  | some n =>
      if b.length = n then
        .ok b
      else
        .error "Incorrect length for protocol address bytes."
  | none => .ok b

/-- A segment of a multiaddr: a bare protocol or a protocol with address
value bytes. -/
inductive MASeg where
  | protoSeg (p : ProtoSpec)
  | addrSeg (p : ProtoSpec) (valueBytes : List Nat)
deriving DecidableEq, Repr

/-- The protocol of a segment. -/
def MASeg.protoOf : MASeg → ProtoSpec
  | .protoSeg p => p
  | .addrSeg p _ => p

/-- Embedding of `Multiaddr.__new__` (lines 587-609): walk the segments,
flagging an unaddressed protocol in last position as incomplete, rejecting
one in any earlier position, and rejecting a protocol that appears twice.
Returns the `is_incomplete` flag. -/
def multiaddrNewLoop : List MASeg → List ProtoSpec → Bool → Except String Bool
  | [], _, incomplete => .ok incomplete
  | seg :: rest, seen, _ =>
      let p := seg.protoOf
      if p ∈ seen then
        .error "Protocol appears twice in multiaddr."
      else
        match seg with
        | .protoSeg q =>
            if q.addrSize ≠ some 0 then
              if rest = [] then
                multiaddrNewLoop rest (p :: seen) true
              else
                .error "Protocol expects an address, but is followed by another protocol."
            else
              multiaddrNewLoop rest (p :: seen) false
        | .addrSeg _ _ =>
            multiaddrNewLoop rest (p :: seen) false

/-- Embedding of `multiaddr.decode` (lines 839-872) as a fuelled state
machine (each iteration of the source's `while` loop consumes at least one
byte, so `length + 1` fuel always suffices).  The loop reads a protocol code
when no protocol is pending; if the protocol admits an address it stays
pending until the next iteration slices its address bytes (`bytes(b[:n])`,
which silently clamps to the bytes available) and validates them through
`Addr` construction.  When the input runs out, the collected segments are
passed to the `Multiaddr` constructor — a still-pending protocol is dropped
at this point, because the source never appends it — and the result is
asserted to be complete. -/
def multiaddrDecodeLoop (tbl : ProtoTable) :
    Nat → List Nat → Option ProtoSpec → List MASeg → Except String (List MASeg)
  | 0, _, _, _ => .error "out of fuel"
  | fuel + 1, b, pending, segs =>
      if b.isEmpty then
        (multiaddrNewLoop segs [] false).bind fun incomplete =>
          if incomplete then
            .error "AssertionError: decoded multiaddr is incomplete."
          else
            .ok segs
      else
        match pending with
        | none =>
            (varint_decode_raw b).bind fun t =>
              match tbl t.1 with
              | none => .error "KeyError: no multiaddr protocol with this code."
              | some p =>
                  if p.addrSize = some 0 then
                    multiaddrDecodeLoop tbl fuel t.2.2 none (segs ++ [.protoSeg p])
                  else
                    multiaddrDecodeLoop tbl fuel t.2.2 (some p) segs
        | some p =>
            match p.addrSize with
            | none =>
                (varint_decode_raw b).bind fun t =>
                  (protoValidateBytes p (t.2.2.take t.1)).bind fun v =>
                    multiaddrDecodeLoop tbl fuel (t.2.2.drop t.1) none
                      (segs ++ [.addrSeg p v])
            | some n =>
                (protoValidateBytes p (b.take n)).bind fun v =>
                  multiaddrDecodeLoop tbl fuel (b.drop n) none (segs ++ [.addrSeg p v])

/-- Embedding of `multiaddr.decode` on a bytes-like input. -/
def multiaddr_decode (tbl : ProtoTable) (bs : List Nat) : Except String (List MASeg) :=
  multiaddrDecodeLoop tbl (bs.length + 1) bs none []

/-- The `ip4` protocol: code 4 (docstring of `Proto.code`), fixed address
size 4 (multiaddr/raw.py line 177). -/
def ip4Proto : ProtoSpec := ⟨"ip4", some 4⟩

/-- The `udp` protocol: code 273 = 0x0111 (docstring TLV example
`bytes(udp/9090).hex() = '91022382'`), fixed address size 2
(multiaddr/raw.py line 215). -/
def udpProto : ProtoSpec := ⟨"udp", some 2⟩

/-- The `quic` protocol: code 460 (docstring of `Proto`), no address
(multiaddr/raw.py line 238). -/
def quicProto : ProtoSpec := ⟨"quic", some 0⟩

/-- A protocol table holding `ip4`, `udp` and `quic` under their registered
codes. -/
def sampleProtoTable : ProtoTable := fun c =>
  if c = 4 then some ip4Proto
  else if c = 273 then some udpProto
  else if c = 460 then some quicProto
  else none

theorem varintBytes_of_lt {x : Nat} (h : x < 128) : varintBytes x = [x] := by
  rw [varintBytes]
  simp [h]

theorem varintBytes_of_ge {x : Nat} (h : ¬ x < 128) :
    varintBytes x = (x % 128 + 128) :: varintBytes (x / 128) := by
  rw [varintBytes]
  simp [h]

theorem varintBytes_ne_nil (x : Nat) : varintBytes x ≠ [] := by
  by_cases h : x < 128
  · rw [varintBytes_of_lt h]
    simp
  · rw [varintBytes_of_ge h]
    simp

theorem varintBytes_length_pos (x : Nat) : 0 < (varintBytes x).length :=
  List.length_pos.mpr (varintBytes_ne_nil x)

theorem varintVal_varintBytes (x : Nat) : varintVal (varintBytes x) = x := by
  induction x using Nat.strong_induction_on with
  | _ x ih =>
    by_cases h : x < 128
    · rw [varintBytes_of_lt h]
      simp [varintVal, Nat.mod_eq_of_lt h]
    · have hx : 0 < x := by omega
      rw [varintBytes_of_ge h]
      have hrec := ih (x / 128) (Nat.div_lt_self hx (by norm_num))
      simp [varintVal, hrec, Nat.mod_add_div]

theorem varintBytes_length_le (m : Nat) :
    ∀ x : Nat, 0 < m → x < 2 ^ (7 * m) → (varintBytes x).length ≤ m := by
  induction m with
  | zero => intro x h; omega
  | succ m ih =>
    intro x _ hx
    by_cases h : x < 128
    · rw [varintBytes_of_lt h]
      simp only [List.length_cons, List.length_nil]
      omega
    · rw [varintBytes_of_ge h]
      have hm : 0 < m := by
        by_contra hm0
        have hmz : m = 0 := by omega
        subst hmz
        norm_num at hx
        exact h hx
      have hdiv : x / 128 < 2 ^ (7 * m) := by
        have h128 : (128 : Nat) = 2 ^ 7 := by norm_num
        rw [Nat.div_lt_iff_lt_mul (by norm_num : 0 < 128), h128, ← pow_add]
        have h7 : 7 * m + 7 = 7 * (m + 1) := by ring
        rw [h7]
        exact hx
      have := ih (x / 128) hm hdiv
      simpa using this

theorem varintBytes_minimal (x : Nat) :
    1 < (varintBytes x).length → 2 ^ (7 * ((varintBytes x).length - 1)) ≤ x := by
  induction x using Nat.strong_induction_on with
  | _ x ih =>
    intro hlen
    by_cases h : x < 128
    · rw [varintBytes_of_lt h] at hlen
      simp at hlen
    · have hx : 0 < x := by omega
      rw [varintBytes_of_ge h] at hlen ⊢
      simp only [List.length_cons] at hlen ⊢
      set L := (varintBytes (x / 128)).length with hL
      have hLpos : 0 < L := varintBytes_length_pos _
      by_cases hL1 : L = 1
      · simp only [hL1]
        norm_num
        omega
      · have hL2 : 1 < L := by omega
        have hrec := ih (x / 128) (Nat.div_lt_self hx (by norm_num)) hL2
        rw [← hL] at hrec
        have hxge : 2 ^ (7 * (L - 1)) * 128 ≤ x := by
          calc 2 ^ (7 * (L - 1)) * 128 ≤ (x / 128) * 128 :=
                Nat.mul_le_mul_right 128 hrec
            _ ≤ x := Nat.div_mul_le_self x 128
        have heq : 2 ^ (7 * (L + 1 - 1)) = 2 ^ (7 * (L - 1)) * 128 := by
          have h128 : (128 : Nat) = 2 ^ 7 := by norm_num
          rw [h128, ← pow_add]
          congr 1
          omega
        rw [heq]
        exact hxge

theorem varintEncodeLoop_eq (x : Nat) :
    ∀ count : Nat, (varintBytes x).length + count ≤ 9 →
      varintEncodeLoop x count = .ok (varintBytes x) := by
  induction x using Nat.strong_induction_on with
  | _ x ih =>
    intro count hcount
    by_cases h : x < 128
    · rw [varintBytes_of_lt h]
      unfold varintEncodeLoop
      have hx2 : ¬ 0 < x / 128 := by
        simp only [not_lt, Nat.le_zero]
        omega
      simp [hx2, Nat.mod_eq_of_lt h]
    · have hx : 0 < x := by omega
      rw [varintBytes_of_ge h] at hcount ⊢
      have hx2 : 0 < x / 128 := Nat.div_pos (by omega) (by norm_num)
      have hlen : (varintBytes (x / 128)).length + (count + 1) ≤ 9 := by
        simp only [List.length_cons] at hcount
        omega
      have hcount9 : ¬ varintMaxNumBytes ≤ count + 1 := by
        have := varintBytes_length_pos (x / 128)
        unfold varintMaxNumBytes
        omega
      have hrec := ih (x / 128) (Nat.div_lt_self hx (by norm_num)) (count + 1) hlen
      unfold varintEncodeLoop
      simp [hx2, hcount9, hrec]

theorem varint_encode_eq (x : Nat) (hx : x < 2 ^ 63) :
    varint_encode x = .ok (varintBytes x) := by
  have hlen : (varintBytes x).length ≤ 9 :=
    varintBytes_length_le 9 x (by norm_num) (by norm_num at hx ⊢; omega)
  exact varintEncodeLoop_eq x 0 (by omega)

theorem varintDecodeLoop_varintBytes (x : Nat) :
    ∀ (rest : List Nat) (numRead acc : Nat),
      (varintBytes x).length + numRead ≤ 9 →
      varintDecodeLoop (varintBytes x ++ rest) numRead acc =
        .ok (acc + x * 2 ^ (7 * numRead), numRead + (varintBytes x).length) := by
  induction x using Nat.strong_induction_on with
  | _ x ih =>
    intro rest numRead acc hlen
    by_cases h : x < 128
    · rw [varintBytes_of_lt h]
      simp only [List.cons_append, List.nil_append]
      unfold varintDecodeLoop
      have hc : ¬ 128 ≤ x := by omega
      simp [hc, Nat.mod_eq_of_lt h, varintBytes_of_lt h]
    · have hx : 0 < x := by omega
      rw [varintBytes_of_ge h] at hlen ⊢
      simp only [List.cons_append, List.length_cons] at hlen ⊢
      unfold varintDecodeLoop
      have hc : 128 ≤ x % 128 + 128 := by omega
      have hlen2 : (varintBytes (x / 128)).length + (numRead + 1) ≤ 9 := by omega
      have h9 : ¬ varintMaxNumBytes ≤ numRead + 1 := by
        have := varintBytes_length_pos (x / 128)
        unfold varintMaxNumBytes
        omega
      have hrec := ih (x / 128) (Nat.div_lt_self hx (by norm_num)) rest (numRead + 1)
        (acc + (x % 128 + 128) % 128 * 2 ^ (7 * numRead)) hlen2
      simp only [hc, if_true, h9, if_false, hrec]
      have hmod : (x % 128 + 128) % 128 = x % 128 := by omega
      have hval : acc + (x % 128 + 128) % 128 * 2 ^ (7 * numRead)
            + x / 128 * 2 ^ (7 * (numRead + 1))
          = acc + x * 2 ^ (7 * numRead) := by
        rw [hmod]
        have hpow : (2 : Nat) ^ (7 * (numRead + 1)) = 2 ^ (7 * numRead) * 128 := by
          have h7 : 7 * (numRead + 1) = 7 * numRead + 7 := by ring
          rw [h7, pow_add]
          norm_num
        rw [hpow]
        calc acc + x % 128 * 2 ^ (7 * numRead) + x / 128 * (2 ^ (7 * numRead) * 128)
            = acc + (x % 128 + 128 * (x / 128)) * 2 ^ (7 * numRead) := by ring
          _ = acc + x * 2 ^ (7 * numRead) := by rw [Nat.mod_add_div]
      rw [hval]
      have hcnt : numRead + 1 + (varintBytes (x / 128)).length
          = numRead + ((varintBytes (x / 128)).length + 1) := by omega
      rw [hcnt]

theorem varint_decode_raw_varintBytes (x : Nat) (hx : x < 2 ^ 63) (rest : List Nat) :
    varint_decode_raw (varintBytes x ++ rest) =
      .ok (x, (varintBytes x).length, rest) := by
  have hlen : (varintBytes x).length ≤ 9 :=
    varintBytes_length_le 9 x (by norm_num) (by norm_num at hx ⊢; omega)
  have hloop := varintDecodeLoop_varintBytes x rest 0 0 (by omega)
  simp only [Nat.mul_zero, pow_zero, Nat.mul_one, Nat.zero_add] at hloop
  unfold varint_decode_raw
  rw [hloop]
  show varintMinCheck (varintBytes x ++ rest) x (varintBytes x).length
      = .ok (x, (varintBytes x).length, rest)
  have hmin : ¬ (1 < (varintBytes x).length ∧ x < 2 ^ (7 * ((varintBytes x).length - 1))) := by
    rintro ⟨h1, h2⟩
    exact absurd h2 (Nat.not_lt.mpr (varintBytes_minimal x h1))
  unfold varintMinCheck
  rw [if_neg hmin]
  have hdrop : (varintBytes x ++ rest).drop (varintBytes x).length = rest := by
    rw [List.drop_append_of_le_length (le_refl _)]
    simp
  rw [hdrop]

/-- C2: for every integer `x` with `0 ≤ x < 2^63`,
`varint.decode(varint.encode(x)) == x`. -/
theorem varint_roundtrip (x : Nat) (hx : x < 2 ^ 63) :
    (varint_encode x).bind varint_decode = .ok x := by
  rw [varint_encode_eq x hx]
  show varint_decode (varintBytes x) = .ok x
  unfold varint_decode
  have hraw := varint_decode_raw_varintBytes x hx []
  rw [List.append_nil] at hraw
  rw [hraw]
  show (if (varintBytes x).length < (varintBytes x).length then
      (Except.error "A bytes-like object was passed, but not all bytes were used by the encoding." : Except String Nat)
    else .ok x) = .ok x
  rw [if_neg (lt_irrefl _)]

/-- Witness for C2 at the concrete input 300. -/
theorem varint_roundtrip_witness :
    300 < 2 ^ 63 ∧ (varint_encode 300).bind varint_decode = .ok 300 :=
  ⟨by norm_num, varint_roundtrip 300 (by norm_num)⟩

theorem varintDecodeLoop_ok_of_term :
    ∀ (bs : List Nat) (numRead acc k : Nat),
      k + numRead ≤ 8 →
      (∀ i, i < k → 128 ≤ bs.getD i 0) →
      k < bs.length →
      bs.getD k 0 < 128 →
      varintDecodeLoop bs numRead acc =
        .ok (acc + varintVal (bs.take (k + 1)) * 2 ^ (7 * numRead), numRead + k + 1) := by
  intro bs
  induction bs with
  | nil =>
    intro numRead acc k h1 h2 h3 h4
    simp at h3
  | cons b rest ih =>
    intro numRead acc k h1 h2 h3 h4
    by_cases hk : k = 0
    · subst hk
      have hb : b < 128 := by simpa using h4
      unfold varintDecodeLoop
      have hc : ¬ 128 ≤ b := by omega
      simp [hc, varintVal]
    · obtain ⟨k2, rfl⟩ : ∃ k2, k = k2 + 1 := ⟨k - 1, by omega⟩
      have hb : 128 ≤ b := by
        have := h2 0 (by omega)
        simpa using this
      unfold varintDecodeLoop
      have h9 : ¬ varintMaxNumBytes ≤ numRead + 1 := by
        unfold varintMaxNumBytes
        omega
      have harg2 : ∀ i, i < k2 → 128 ≤ rest.getD i 0 := by
        intro i hi
        have := h2 (i + 1) (by omega)
        simpa using this
      have harg3 : k2 < rest.length := by
        simp only [List.length_cons] at h3
        omega
      have harg4 : rest.getD k2 0 < 128 := by
        simpa using h4
      have hrec := ih (numRead + 1) (acc + b % 128 * 2 ^ (7 * numRead)) k2
        (by omega) harg2 harg3 harg4
      simp only [hb, if_true, h9, if_false, hrec]
      have htake : (b :: rest).take (k2 + 1 + 1) = b :: rest.take (k2 + 1) := by
        simp [List.take]
      rw [htake]
      have hval : acc + b % 128 * 2 ^ (7 * numRead)
            + varintVal (rest.take (k2 + 1)) * 2 ^ (7 * (numRead + 1))
          = acc + varintVal (b :: rest.take (k2 + 1)) * 2 ^ (7 * numRead) := by
        have hpow : (2 : Nat) ^ (7 * (numRead + 1)) = 2 ^ (7 * numRead) * 128 := by
          have h7 : 7 * (numRead + 1) = 7 * numRead + 7 := by ring
          rw [h7, pow_add]
          norm_num
        rw [hpow]
        show acc + b % 128 * 2 ^ (7 * numRead)
            + varintVal (rest.take (k2 + 1)) * (2 ^ (7 * numRead) * 128)
          = acc + (b % 128 + 128 * varintVal (rest.take (k2 + 1))) * 2 ^ (7 * numRead)
        ring
      rw [hval]
      have hcnt : numRead + 1 + k2 + 1 = numRead + (k2 + 1) + 1 := by omega
      rw [hcnt]

theorem varintDecodeLoop_error_of_cont :
    ∀ (bs : List Nat) (numRead acc : Nat),
      numRead ≤ 8 →
      (∀ i, i < min (9 - numRead) bs.length → 128 ≤ bs.getD i 0) →
      ∃ e, varintDecodeLoop bs numRead acc = .error e := by
  intro bs
  induction bs with
  | nil =>
    intro numRead acc h1 h2
    unfold varintDecodeLoop
    by_cases h : numRead = 0 <;> simp [h]
  | cons b rest ih =>
    intro numRead acc h1 h2
    have hb : 128 ≤ b := by
      have := h2 0 (by simp; omega)
      simpa using this
    unfold varintDecodeLoop
    by_cases h8 : numRead = 8
    · subst h8
      simp [hb, varintMaxNumBytes]
    · have h9 : ¬ varintMaxNumBytes ≤ numRead + 1 := by
        unfold varintMaxNumBytes
        omega
      have harg : ∀ i, i < min (9 - (numRead + 1)) rest.length → 128 ≤ rest.getD i 0 := by
        intro i hi
        have := h2 (i + 1) (by simp at hi ⊢; omega)
        simpa using this
      have hrec := ih (numRead + 1) (acc + b % 128 * 2 ^ (7 * numRead)) (by omega) harg
      simpa [hb, h9] using hrec

/-- C3: `varint.decode(b)` raises a `ValueError` exactly when one of the five
spec conditions holds (empty input, continuation byte at position 9, missing
follow-up byte, non-minimal encoding, or trailing unconsumed bytes); on all
other byte inputs it succeeds. -/
theorem varint_decode_error_iff (bs : List Nat) (hbytes : ∀ b ∈ bs, b < 256) :
    exceptIsError (varint_decode bs) = true ↔ varintDecodeFails bs := by
  by_cases hterm : ∃ j, j < min 9 bs.length ∧ bs.getD j 0 < 128
  · obtain ⟨j, hjlt, hjterm, hjleast⟩ :
        ∃ j, j < min 9 bs.length ∧ bs.getD j 0 < 128 ∧
          ∀ i, i < j → ¬ (i < min 9 bs.length ∧ bs.getD i 0 < 128) :=
      ⟨Nat.find hterm, (Nat.find_spec hterm).1, (Nat.find_spec hterm).2,
        fun i hi => Nat.find_min hterm hi⟩
    have hj8 : j ≤ 8 := by omega
    have hjlen : j < bs.length := by omega
    have hjcont : ∀ i, i < j → 128 ≤ bs.getD i 0 := by
      intro i hi
      by_contra hcon
      push_neg at hcon
      exact hjleast i hi ⟨by omega, hcon⟩
    have huniq : ∀ k, k ≤ 8 → k < bs.length → (∀ i, i < k → 128 ≤ bs.getD i 0) →
        bs.getD k 0 < 128 → k = j := by
      intro k hk8 hklen hkc hkterm
      rcases Nat.lt_trichotomy k j with hlt | heq | hgt
      · exact absurd ⟨by omega, hkterm⟩ (hjleast k hlt)
      · exact heq
      · exact absurd (hkc j hgt) (by omega)
    have hloop := varintDecodeLoop_ok_of_term bs 0 0 j (by omega) hjcont hjlen hjterm
    simp only [Nat.mul_zero, pow_zero, Nat.mul_one, Nat.zero_add] at hloop
    set v := varintVal (bs.take (j + 1)) with hvdef
    have hdecraw : varint_decode_raw bs = varintMinCheck bs v (j + 1) := by
      unfold varint_decode_raw
      rw [hloop]
      rfl
    by_cases hminfail : 1 ≤ j ∧ v < 2 ^ (7 * j)
    · have hcheck : varintMinCheck bs v (j + 1)
          = .error "Number was not minimally encoded." := by
        unfold varintMinCheck
        rw [if_pos]
        refine ⟨by omega, ?_⟩
        have h7 : j + 1 - 1 = j := by omega
        rw [h7]
        exact hminfail.2
      have hdec : exceptIsError (varint_decode bs) = true := by
        unfold varint_decode
        rw [hdecraw, hcheck]
        rfl
      rw [hdec]
      simp only [true_iff]
      right; right; right; left
      exact ⟨j, hj8, hjlen, hjcont, hjterm, hminfail.1, hminfail.2⟩
    · have hcheck : varintMinCheck bs v (j + 1) = .ok (v, j + 1, bs.drop (j + 1)) := by
        unfold varintMinCheck
        rw [if_neg]
        intro hcon
        refine hminfail ⟨by omega, ?_⟩
        have h7 : j + 1 - 1 = j := by omega
        rw [h7] at hcon
        exact hcon.2
      by_cases htrail : j + 1 < bs.length
      · have hdec : exceptIsError (varint_decode bs) = true := by
          unfold varint_decode
          rw [hdecraw, hcheck]
          show exceptIsError (if j + 1 < bs.length then
              (Except.error "A bytes-like object was passed, but not all bytes were used by the encoding." : Except String Nat)
            else .ok v) = true
          rw [if_pos htrail]
          rfl
        rw [hdec]
        simp only [true_iff]
        right; right; right; right
        exact ⟨j, hj8, hjlen, hjcont, hjterm, htrail⟩
      · have hdec : varint_decode bs = .ok v := by
          unfold varint_decode
          rw [hdecraw, hcheck]
          show (if j + 1 < bs.length then
              (Except.error "A bytes-like object was passed, but not all bytes were used by the encoding." : Except String Nat)
            else .ok v) = .ok v
          rw [if_neg htrail]
        rw [hdec]
        simp only [exceptIsError, Bool.false_eq_true, false_iff]
        rintro (hfail | hfail | hfail | hfail | hfail)
        · rw [hfail] at hjlen
          simp at hjlen
        · exact absurd (hfail.2 j (by omega)) (by omega)
        · exact absurd (hfail.2.2 j hjlen) (by omega)
        · obtain ⟨k, hk8, hklen, hkc, hkterm, hk1, hkval⟩ := hfail
          have hkj := huniq k hk8 hklen hkc hkterm
          subst hkj
          exact hminfail ⟨hk1, hkval⟩
        · obtain ⟨k, hk8, hklen, hkc, hkterm, hktrail⟩ := hfail
          have hkj := huniq k hk8 hklen hkc hkterm
          subst hkj
          exact htrail hktrail
  · push_neg at hterm
    obtain ⟨e, he⟩ := varintDecodeLoop_error_of_cont bs 0 0 (by omega)
      (by intro i hi; exact hterm i hi)
    have hdec : exceptIsError (varint_decode bs) = true := by
      unfold varint_decode varint_decode_raw
      rw [he]
      rfl
    rw [hdec]
    simp only [true_iff]
    by_cases hnil : bs = []
    · left
      exact hnil
    · by_cases hlen9 : 9 ≤ bs.length
      · right; left
        exact ⟨hlen9, fun i hi => hterm i (by omega)⟩
      · right; right; left
        refine ⟨hnil, by omega, fun i hi => hterm i (by omega)⟩

/-- Witness for C3 at the non-minimally encoded input `[0x81, 0x00]`. -/
theorem varint_decode_error_iff_witness :
    (∀ b ∈ [129, 0], b < 256) ∧
      (exceptIsError (varint_decode [129, 0]) = true ↔ varintDecodeFails [129, 0]) :=
  ⟨by decide, varint_decode_error_iff [129, 0] (by decide)⟩

theorem except_bind_ok {α β : Type} (a : α) (f : α → Except String β) :
    (Except.ok a : Except String α).bind f = f a := rfl

theorem except_bind_error {α β : Type} (e : String) (f : α → Except String β) :
    (Except.error e : Except String α).bind f = .error e := rfl

theorem multihash_digest_eq (h : Multihash) (data : List Nat) (size : Option Nat)
    (hcodelt : h.code < 2 ^ 63)
    (hsz : ∀ s, size = some s → (h.hashfun data size).length = s)
    (hlen : (h.hashfun data size).length < 2 ^ 63) :
    multihash_digest h data size
      = .ok (varintBytes h.code
          ++ (varintBytes (h.hashfun data size).length ++ h.hashfun data size)) := by
  cases size with
  | none =>
      show (varint_encode h.code).bind (fun c =>
          (varint_encode (h.hashfun data none).length).bind fun s =>
            Except.ok (c ++ (s ++ h.hashfun data none)))
        = .ok (varintBytes h.code
            ++ (varintBytes (h.hashfun data none).length ++ h.hashfun data none))
      rw [varint_encode_eq h.code hcodelt, except_bind_ok,
        varint_encode_eq _ hlen, except_bind_ok]
  | some s =>
      have hs : (h.hashfun data (some s)).length = s := hsz s rfl
      show (if s = (h.hashfun data (some s)).length then
          (varint_encode h.code).bind fun c =>
            (varint_encode s).bind fun s2 =>
              Except.ok (c ++ (s2 ++ h.hashfun data (some s)))
        else .error "AssertionError: digest size differs from the requested size.")
        = .ok (varintBytes h.code
            ++ (varintBytes (h.hashfun data (some s)).length ++ h.hashfun data (some s)))
      rw [if_pos hs.symm, varint_encode_eq h.code hcodelt, except_bind_ok]
      rw [show varint_encode s = varint_encode (h.hashfun data (some s)).length by rw [hs]]
      rw [varint_encode_eq _ hlen, except_bind_ok, hs]

/-- C4: for every implemented multihash `h` and every data bytestring `d`,
`multihash.unwrap(multihash.digest(d, h), h)` succeeds and returns the raw
digest `h.hashfun(d)` (truncated to the requested size when one is given);
in particular `unwrap` never fails on a digest produced by `digest`.
Hypotheses: the code is registered with tag `multihash` (which
`multihash.raw.register` enforces for every implemented hash), codes and
digest lengths are below `2^63` (true of every table entry), the hash
function honours a requested size (the source asserts this), and its output
respects the registered maximum digest size. -/
theorem multihash_digest_unwrap (tbl : MulticodecCodeTable) (h : Multihash)
    (data : List Nat) (size : Option Nat)
    (hcode : ∃ c, tbl h.code = some c ∧ c.tag = "multihash")
    (hcodelt : h.code < 2 ^ 63)
    (hsz : ∀ s, size = some s → (h.hashfun data size).length = s)
    (hmax : ∀ m, h.maxDigestSize = some m → (h.hashfun data size).length ≤ m)
    (hlen : (h.hashfun data size).length < 2 ^ 63) :
    (multihash_digest h data size).bind (multihash_unwrap tbl h)
      = .ok (h.hashfun data size) := by
  obtain ⟨c, hc, hctag⟩ := hcode
  rw [multihash_digest_eq h data size hcodelt hsz hlen, except_bind_ok]
  have hunwrapraw : multihash_unwrap_raw tbl
      (varintBytes h.code ++ (varintBytes (h.hashfun data size).length ++ h.hashfun data size))
      = .ok (h.code, h.hashfun data size) := by
    unfold multihash_unwrap_raw multicodec_unwrap_raw
    rw [varint_decode_raw_varintBytes h.code hcodelt, except_bind_ok]
    have hexists : multihash_exists_code tbl h.code = true := by
      unfold multihash_exists_code
      rw [hc]
      simp [hctag]
    show ((match tbl h.code with
        | none => Except.error "KeyError: no multicodec is known with the unwrapped code."
        | some _ => Except.ok (h.code, (varintBytes h.code).length,
            varintBytes (h.hashfun data size).length ++ h.hashfun data size)).bind fun p =>
      if multihash_exists_code tbl p.1 then
        (varint_decode_raw p.2.2).bind fun q =>
          if q.1 = q.2.2.length then
            .ok (p.1, q.2.2)
          else
            .error "Multihash digest lists a size different from the hash digest size."
      else
        .error "KeyError: the unwrapped multicodec code is not a multihash.")
      = .ok (h.code, h.hashfun data size)
    rw [hc, except_bind_ok]
    show (if multihash_exists_code tbl h.code then
        (varint_decode_raw (varintBytes (h.hashfun data size).length
            ++ h.hashfun data size)).bind fun q =>
          if q.1 = q.2.2.length then
            .ok (h.code, q.2.2)
          else
            .error "Multihash digest lists a size different from the hash digest size."
      else
        .error "KeyError: the unwrapped multicodec code is not a multihash.")
      = .ok (h.code, h.hashfun data size)
    rw [hexists, if_pos rfl, varint_decode_raw_varintBytes _ hlen, except_bind_ok]
    show (if (h.hashfun data size).length = (h.hashfun data size).length then
        (Except.ok (h.code, h.hashfun data size) : Except String (Nat × List Nat))
      else
        .error "Multihash digest lists a size different from the hash digest size.")
      = .ok (h.code, h.hashfun data size)
    rw [if_pos rfl]
  unfold multihash_unwrap
  rw [hunwrapraw, except_bind_ok]
  show (if h.code = h.code then
      (validateRawDigestSize h.maxDigestSize (h.hashfun data size)).bind fun _ =>
        .ok (h.hashfun data size)
    else
      .error "Decoded code differs from multihash code.") = .ok (h.hashfun data size)
  rw [if_pos rfl]
  have hvalidate : validateRawDigestSize h.maxDigestSize (h.hashfun data size) = .ok () := by
    rcases hopt : h.maxDigestSize with _ | m
    · rfl
    · show (if m < (h.hashfun data size).length then
          (Except.error "A digest of size larger than the max digest size was unwrapped."
            : Except String Unit)
        else .ok ()) = .ok ()
      rw [if_neg]
      push_neg
      exact hmax m hopt
  rw [hvalidate, except_bind_ok]

/-- Witness for C4: the identity multihash on the data `[1, 2, 3]`. -/
theorem multihash_digest_unwrap_witness :
    (multihash_digest identityMultihash [1, 2, 3] none).bind
        (multihash_unwrap sampleMulticodecTable identityMultihash)
      = .ok (identityMultihash.hashfun [1, 2, 3] none) :=
  multihash_digest_unwrap sampleMulticodecTable identityMultihash [1, 2, 3] none
    ⟨⟨"identity", "multihash", 0, "permanent", "raw binary"⟩, rfl, rfl⟩
    (by decide)
    (by intro s hcon; cases hcon)
    (by intro m hcon; cases hcon)
    (by decide)

/-- C5: the binary serialization of a CID: for version 0 it is exactly the
multihash digest bytes (34 bytes for the sha2-256 digests that version-0
validation enforces); for version 1 it is
`varint(1) || varint(codec.code) || digest`. -/
theorem cid_to_bytes_spec (c : CID) :
    (c.version = 0 →
      CID_toBytes c = .ok c.digest
        ∧ ∀ raw : List Nat, c.digest = varintBytes 18 ++ (varintBytes 32 ++ raw) →
            raw.length = 32 → c.digest.length = 34)
    ∧ (c.version = 1 → c.codec.code < 2 ^ 63 →
        CID_toBytes c = .ok (varintBytes 1 ++ varintBytes c.codec.code ++ c.digest)) := by
  constructor
  · intro h0
    constructor
    · unfold CID_toBytes
      rw [if_pos h0]
    · intro raw hdig hlen
      rw [hdig]
      have h18 : varintBytes 18 = [18] := varintBytes_of_lt (by norm_num)
      have h32 : varintBytes 32 = [32] := varintBytes_of_lt (by norm_num)
      rw [h18, h32]
      simp [hlen]
  · intro h1 hcode
    unfold CID_toBytes
    rw [if_neg (by omega), h1, varint_encode_eq 1 (by norm_num), except_bind_ok,
      varint_encode_eq c.codec.code hcode, except_bind_ok]

/-- Witness for C5: the version-1 branch evaluated on a concrete CID. -/
theorem cid_to_bytes_spec_witness :
    sampleCID.version = 1 ∧ rawCodec.code < 2 ^ 63 ∧
      CID_toBytes sampleCID
        = .ok (varintBytes 1 ++ varintBytes sampleCID.codec.code ++ sampleCID.digest) :=
  ⟨rfl, by decide, (cid_to_bytes_spec sampleCID).2 rfl (by decide)⟩

/-- C6: CID construction, and `CID.set` when changing the version, reject
versions 2 and 3 (reserved) and any version other than 0 or 1; for version 0
they reject any base other than `base58btc`, codec other than `dag-pb` or
hash function other than `sha2-256`, naming the offending field in the
error. -/
theorem cid_version_validation (b : Multibase) (v : Int) (mc : Multicodec)
    (hname : String) (digest : List Nat) (c : CID) :
    ((v = 2 ∨ v = 3) → exceptIsError (CID_new b v mc hname digest) = true)
    ∧ (v ≠ 0 → v ≠ 1 → exceptIsError (CID_new b v mc hname digest) = true)
    ∧ (v = 0 → b.name ≠ "base58btc" →
        CID_new b v mc hname digest
          = .error ("CIDv0 multibase must be base58btc, found " ++ b.name ++ " instead."))
    ∧ (v = 0 → b.name = "base58btc" → mc.name ≠ "dag-pb" →
        CID_new b v mc hname digest
          = .error ("CIDv0 multicodec must be dag-pb, found " ++ mc.name ++ " instead."))
    ∧ (v = 0 → b.name = "base58btc" → mc.name = "dag-pb" → hname ≠ "sha2-256" →
        CID_new b v mc hname digest
          = .error ("CIDv0 multihash must be sha2-256, found " ++ hname ++ " instead."))
    ∧ (v = 0 → b.name = "base58btc" → mc.name = "dag-pb" → hname = "sha2-256" →
        exceptIsError (CID_new b v mc hname digest) = false)
    ∧ (v ≠ (c.version : Int) →
        exceptIsError (CID_set_version c v)
          = exceptIsError (CID_validate_version v c.base.name c.codec.name c.hashfunName)) := by
  refine ⟨?_, ?_, ?_, ?_, ?_, ?_, ?_⟩
  · rintro hv
    unfold CID_new CID_validate_version
    rw [if_pos hv, except_bind_error]
    rfl
  · intro hv0 hv1
    unfold CID_new CID_validate_version
    by_cases h23 : v = 2 ∨ v = 3
    · rw [if_pos h23, except_bind_error]
      rfl
    · rw [if_neg h23, if_pos (by omega), except_bind_error]
      rfl
  · intro hv hb
    subst hv
    unfold CID_new CID_validate_version
    rw [if_neg (by omega), if_neg (by omega), if_pos rfl, if_pos hb, except_bind_error]
  · intro hv hb hm
    subst hv
    unfold CID_new CID_validate_version
    rw [if_neg (by omega), if_neg (by omega), if_pos rfl, if_neg (by simp [hb]),
      if_pos hm, except_bind_error]
  · intro hv hb hm hh
    subst hv
    unfold CID_new CID_validate_version
    rw [if_neg (by omega), if_neg (by omega), if_pos rfl, if_neg (by simp [hb]),
      if_neg (by simp [hm]), if_pos hh, except_bind_error]
  · intro hv hb hm hh
    subst hv
    unfold CID_new CID_validate_version
    rw [if_neg (by omega), if_neg (by omega), if_pos rfl, if_neg (by simp [hb]),
      if_neg (by simp [hm]), if_neg (by simp [hh]), except_bind_ok]
    rfl
  · intro hv
    unfold CID_set_version
    rw [if_neg hv]
    rcases hval : CID_validate_version v c.base.name c.codec.name c.hashfunName with e | v2
    · rw [except_bind_error]
      rfl
    · rw [except_bind_ok]
      rfl

/-- Witness for C6: version 2 is rejected on concrete inputs, and a concrete
version change through `CID.set` re-validates. -/
theorem cid_version_validation_witness :
    exceptIsError (CID_new base58btcBase 2 rawCodec "sha2-256" [18, 32]) = true ∧
      exceptIsError (CID_set_version sampleCID 3)
        = exceptIsError (CID_validate_version 3 sampleCID.base.name
            sampleCID.codec.name sampleCID.hashfunName) :=
  ⟨(cid_version_validation base58btcBase 2 rawCodec "sha2-256" [18, 32] sampleCID).1
      (Or.inl rfl),
    (cid_version_validation base58btcBase 2 rawCodec "sha2-256" [18, 32]
      sampleCID).2.2.2.2.2.2 (by decide)⟩

/-- C7: CID equality and hashing depend only on the triple
`(version, codec, digest)` and not on the base: two CIDs that agree on those
three fields but have different multibases compare equal and have equal
hash values. -/
theorem cid_eq_ignores_base (c1 c2 : CID)
    (hv : c1.version = c2.version) (hc : c1.codec = c2.codec)
    (hd : c1.digest = c2.digest) (hb : c1.base ≠ c2.base) :
    cidEq c1 c2 = true ∧ cidHashValue c1 = cidHashValue c2 := by
  constructor
  · simp [cidEq, CID.asTuple, hv, hc, hd]
  · simp [cidHashValue, hv, hc, hd]

/-- Witness for C7: the sample CID under two different bases. -/
theorem cid_eq_ignores_base_witness :
    sampleCID.base ≠ sampleCIDBase32.base ∧
      cidEq sampleCID sampleCIDBase32 = true ∧
      cidHashValue sampleCID = cidHashValue sampleCIDBase32 :=
  ⟨by decide, cid_eq_ignores_base sampleCID sampleCIDBase32 rfl rfl rfl (by decide)⟩

theorem multibase_from_str_cons_none (tbl : MultibaseCodeTable) (ch : Char)
    (rest : List Char) (h : tbl ch = none) :
    multibase_from_str tbl (ch :: rest)
      = .error "KeyError: no known multibase code is a prefix of the given string." := by
  simp only [multibase_from_str]
  rw [h]

theorem multibase_from_str_cons_some (tbl : MultibaseCodeTable) (ch : Char)
    (rest : List Char) (e : Multibase) (h : tbl ch = some e) :
    multibase_from_str tbl (ch :: rest) = .ok e := by
  simp only [multibase_from_str]
  rw [h]

/-- C8: for a registered multibase `B`, the instance method `B.decode(s)`
raises a `ValueError` naming the expected and found encodings whenever the
leading prefix of `s` denotes a registered multibase different from `B`, and
it performs raw decoding exactly when the prefix denotes `B` itself (empty
strings and unregistered prefixes are also rejected). -/
theorem multibase_decode_prefix_check (tbl : MultibaseCodeTable)
    (rawDecoder : String → List Char → Except String (List Nat))
    (b : Multibase) (s : List Char) :
    (s = [] → exceptIsError (multibase_decode tbl rawDecoder b s) = true)
    ∧ (∀ ch rest, s = ch :: rest →
        (tbl ch = none → exceptIsError (multibase_decode tbl rawDecoder b s) = true)
        ∧ (∀ e, tbl ch = some e → multibaseEq e b = false →
            multibase_decode tbl rawDecoder b s
              = .error ("Expected " ++ b.name ++ " encoding, found " ++ e.name
                  ++ " encoding instead."))
        ∧ (∀ e, tbl ch = some e → multibaseEq e b = true →
            multibase_decode tbl rawDecoder b s = rawDecoder b.name rest)) := by
  constructor
  · intro hnil
    subst hnil
    rfl
  · intro ch rest hs
    subst hs
    refine ⟨?_, ?_, ?_⟩
    · intro hnone
      unfold multibase_decode
      rw [multibase_from_str_cons_none tbl ch rest hnone, except_bind_error]
      rfl
    · intro e he hne
      unfold multibase_decode
      rw [multibase_from_str_cons_some tbl ch rest e he, except_bind_ok]
      show (if multibaseEq e b then rawDecoder b.name ((ch :: rest).drop 1)
        else .error ("Expected " ++ b.name ++ " encoding, found " ++ e.name
          ++ " encoding instead."))
        = .error ("Expected " ++ b.name ++ " encoding, found " ++ e.name
          ++ " encoding instead.")
      rw [hne]
      rfl
    · intro e he heq
      unfold multibase_decode
      rw [multibase_from_str_cons_some tbl ch rest e he, except_bind_ok]
      show (if multibaseEq e b then rawDecoder b.name ((ch :: rest).drop 1)
        else .error ("Expected " ++ b.name ++ " encoding, found " ++ e.name
          ++ " encoding instead."))
        = rawDecoder b.name rest
      rw [heq]
      rfl

/-- Witness for C8: decoding a base32-prefixed string with the base58btc
instance raises the mismatch error naming both encodings. -/
theorem multibase_decode_prefix_check_witness :
    sampleMultibaseTable 'b' = some base32Base ∧
      multibaseEq base32Base base58btcBase = false ∧
      multibase_decode sampleMultibaseTable sampleRawDecoder base58btcBase
          ['b', 'x', 'y']
        = .error ("Expected " ++ base58btcBase.name ++ " encoding, found "
            ++ base32Base.name ++ " encoding instead.") :=
  ⟨by decide, by decide,
    ((multibase_decode_prefix_check sampleMultibaseTable sampleRawDecoder
        base58btcBase ['b', 'x', 'y']).2 'b' ['x', 'y'] rfl).2.1
      base32Base (by decide) (by decide)⟩

/-- C9: if code `c` is registered under name `nOld` and `m` is a multicodec
with `m.code = c`, a name different from `nOld` and not registered under a
different code, then `register(m, overwrite=True)` succeeds; afterwards
`get(code=c)` and `get(m.name)` both return `m`, the superseded entry is
still reachable by name (`get(nOld)` returns the old multicodec), and no
other entry of either table changes. -/
theorem multicodec_register_overwrite_frame (r : MulticodecRegistry)
    (m old : Multicodec) (nOld : String)
    (hold : r.codeTable m.code = some old)
    (holdname : old.name = nOld)
    (hnamediff : m.name ≠ nOld)
    (holdreg : r.nameTable nOld = some old)
    (hnoclash : ∀ e, r.nameTable m.name = some e → e.code = m.code) :
    ∃ r2, multicodec_register r m true = .ok r2
      ∧ multicodec_get_code r2 m.code = .ok m
      ∧ multicodec_get_name r2 m.name = .ok m
      ∧ multicodec_get_name r2 nOld = .ok old
      ∧ (∀ c, c ≠ m.code → r2.codeTable c = r.codeTable c)
      ∧ (∀ n, n ≠ m.name → r2.nameTable n = r.nameTable n) := by
  have hclash : multicodecNameClash r m = false := by
    unfold multicodecNameClash
    rcases hn : r.nameTable m.name with _ | e
    · rfl
    · have := hnoclash e hn
      simp [this]
  refine ⟨{ codeTable := fun c => if c = m.code then some m else r.codeTable c
            nameTable := fun n => if n = m.name then some m else r.nameTable n },
    ?_, ?_, ?_, ?_, ?_, ?_⟩
  · unfold multicodec_register
    rw [if_neg (by simp), if_neg (by simp [hclash])]
  · unfold multicodec_get_code
    simp
  · unfold multicodec_get_name
    simp
  · unfold multicodec_get_name
    show (match (if nOld = m.name then some m else r.nameTable nOld) with
      | some e => Except.ok e
      | none => Except.error "KeyError: no multicodec with this name.") = .ok old
    rw [if_neg (fun hcon => hnamediff hcon.symm), holdreg]
  · intro c hc
    show (if c = m.code then some m else r.codeTable c) = r.codeTable c
    rw [if_neg hc]
  · intro n hn
    show (if n = m.name then some m else r.nameTable n) = r.nameTable n
    rw [if_neg hn]

/-- Witness for C9: overwrite registration over code 5 of the sample
registry. -/
theorem multicodec_register_overwrite_frame_witness :
    ∃ r2, multicodec_register sampleRegistry newCodec true = .ok r2
      ∧ multicodec_get_code r2 newCodec.code = .ok newCodec
      ∧ multicodec_get_name r2 newCodec.name = .ok newCodec
      ∧ multicodec_get_name r2 "old-codec" = .ok ⟨"old-codec", "ipld", 5, "draft", ""⟩
      ∧ (∀ c, c ≠ newCodec.code → r2.codeTable c = sampleRegistry.codeTable c)
      ∧ (∀ n, n ≠ newCodec.name → r2.nameTable n = sampleRegistry.nameTable n) :=
  multicodec_register_overwrite_frame sampleRegistry newCodec
    ⟨"old-codec", "ipld", 5, "draft", ""⟩ "old-codec"
    (by decide) (by decide) (by decide) (by decide)
    (by
      intro e he
      have h0 : sampleRegistry.nameTable newCodec.name = none := by decide
      rw [h0] at he
      cases he)

/-- C1 (evaluation at the failing input): decoding `bytes([0x04])`, which
ends immediately after the `ip4` protocol code, does not raise; it silently
returns the empty multiaddr, dropping the trailing protocol that still
required a 4-byte address.  The spec requires this input to be rejected. -/
theorem multiaddr_decode_drops_trailing_proto :
    multiaddr_decode sampleProtoTable [4] = .ok [] := rfl

/-- C10 (evaluation at the failing input): decoding `bytes([0x91, 0x02])`
(the varint of the `udp` code 273) leaves zero bytes — fewer than the fixed
address size 2 — after the protocol code, yet `decode` does not raise: it
returns the empty multiaddr. -/
theorem multiaddr_decode_short_addr_no_error :
    multiaddr_decode sampleProtoTable [145, 2] = .ok [] := rfl

/-- Supporting fact for C10: when at least one byte (but fewer than the
fixed address size) remains after the protocol code, the short slice reaches
the raw decoder's length check and `decode` does raise. -/
theorem multiaddr_decode_short_addr_error :
    multiaddr_decode sampleProtoTable [4, 127]
      = .error "Incorrect length for protocol address bytes." := rfl

